import Mathlib

/-!
Verification of the `risk_lab` ingestion core: a shallow embedding of
`src/risk_lab/validation/checks.py` (the data-quality validation engine) and
`src/risk_lab/storage/parquet_store.py` (partitioned writer and run catalog),
together with proofs of the specified properties.

Modelling conventions:
* Calendar dates are epoch-day integers (`Int`); 1970-01-01 is day 0, a
  Thursday. A business day is a weekday Monday..Friday, mirroring pandas
  frequency "B" (5-day week, no holiday calendar).
* Numeric cell values are exact rationals (`Rat`), idealising float64.
  `np.isclose(std, 0)` with the default `atol = 1e-8` is translated exactly as
  `variance ≤ 1/10^16` (std = sqrt(variance) is monotone, so `std ≤ 1e-8` and
  `variance ≤ 1e-16` coincide).
* A cell is a number, a non-numeric string, or a null (NaN). Pandas
  `to_numeric(errors="coerce")` maps numbers to themselves and everything else
  to null. The column dtype ("object" vs numeric) is an explicit flag on the
  column, as in pandas it is a property of the column's storage, not of the
  individual values.
* A raised Python exception is modelled as `Except.error`; `validate_dataset`
  raises exactly when the business-day reindexing step
  (`pd.date_range(min, max, freq="B")` + `Series.reindex`) is reached (some
  required column is present in the table) on an index that is not a
  non-empty, duplicate-free `DatetimeIndex`: `pd.date_range` raises on a
  non-date index or on the NaT min/max of an empty index, and `reindex`
  raises on an index with duplicate labels. A non-datetime index is modelled
  as a list of opaque labels that do not parse as dates.
* Python `dict` insertion-order semantics: first insertion fixes the position
  of a key; a later assignment to the same key overwrites the value in place.
  Inside the per-required-column loop every re-assignment to the same key
  recomputes the same value (the value is a function of the table and the
  column id only), so the loop's maps are built with a first-wins insert;
  across the two outlier loops (where a later assignment can genuinely change
  the value) the exact overwrite-in-place insert is used.
-/

namespace RiskLab

/-- Day of week of an epoch day, Monday = 0 .. Sunday = 6
(day 0 = 1970-01-01 was a Thursday, i.e. 3). -/
def weekday (d : Int) : Int := (d + 3) % 7

/-- Business day (pandas frequency "B"): Monday..Friday. -/
def isBusinessDay (d : Int) : Bool := weekday d < 5

/-- All epoch days from `lo` to `hi` inclusive. -/
def dayRange (lo hi : Int) : List Int :=
  (List.range (hi + 1 - lo).toNat).map (fun (i : Nat) => lo + (i : Int))

/-- The business-day calendar spanning `lo` to `hi` inclusive:
the model of `pd.date_range(lo, hi, freq="B")`. -/
def bdayRange (lo hi : Int) : List Int :=
  (dayRange lo hi).filter isBusinessDay

/-- A cell of the merged table: a float64 number, a non-numeric string
(possible only in an object-dtype column), or a null (NaN/None). -/
inductive Cell where
  | num (q : Rat)
  | str (s : String)
  | null
  deriving DecidableEq, Repr

/-- The model of `Series.isna` on one cell. -/
def Cell.isNA : Cell → Bool
  | .null => true
  | _ => false

/-- The model of `pd.to_numeric(·, errors="coerce")` on one cell. -/
def cellToNumeric : Cell → Option Rat
  | .num q => some q
  | _ => none

/-- A column: its pandas dtype flag (object vs numeric) and its cells,
aligned with the table index. -/
structure Col where
  objectDtype : Bool
  cells : List Cell
  deriving DecidableEq, Repr

/-- The index of the table: either a `DatetimeIndex` of epoch days, or a
non-datetime index of opaque labels (not parsable as dates). -/
inductive IndexData where
  | datetime (dates : List Int)
  | nonDatetime (labels : List String)
  deriving DecidableEq, Repr

/-- The merged table handed to the validation engine: index name, index, and
named columns in order. -/
structure Frame where
  indexName : Option String
  index : IndexData
  cols : List (String × Col)
  deriving DecidableEq, Repr

/-- Column names in table order (`data.columns.tolist()`). -/
def Frame.colNames (f : Frame) : List String := f.cols.map (fun p => p.1)

/-- Column lookup (`data[col]`); first match, meaningful when column names
are unique as in any pandas frame the pipeline builds. -/
def Frame.getCol (f : Frame) (c : String) : Option Col :=
  (f.cols.find? (fun p => p.1 == c)).map (fun p => p.2)

/-- The dates of the index when it is a `DatetimeIndex`. -/
def Frame.indexDates (f : Frame) : List Int :=
  match f.index with
  | .datetime ds => ds
  | .nonDatetime _ => []

/-- Number of rows (`len(data)`). -/
def frameRows (f : Frame) : Nat :=
  match f.index with
  | .datetime ds => ds.length
  | .nonDatetime ls => ls.length

/-- Well-formedness of a model frame as a picture of a pandas DataFrame:
unique column names and every column aligned with the index. -/
def Frame.wf (f : Frame) : Bool :=
  (f.colNames.dedup.length == f.colNames.length) &&
    f.cols.all (fun p => p.2.cells.length == frameRows f)

/-- Structured report entries. Each constructor corresponds to one f-string
in `checks.py`, carrying the interpolated data. -/
inductive Msg where
  | indexNameErr
  | indexTypeErr
  | duplicateDates
  | nonMonotonicDates
  | missingColumns (cols : List String)
  | optionalUnavailable (col : String)
  | emptyData (col : String)
  | mixedValues (col : String)
  | objectDtypeWarn (col : String)
  | impossibleValues (col : String) (count : Nat)
  | outlierMarket (col : String) (count : Nat)
  | outlierFred (col : String) (count : Nat)
  | stale (col : String) (latest : Int) (age : Int) (threshold : Int)
  deriving DecidableEq, Repr

/-- Per-report metrics, mirroring the `metrics` dict of `validate_dataset`:
the keys `row_count`, `column_count`, `missing_pct`,
`largest_missing_business_gap`, `latest_date`, `outlier_counts`,
`stale_series`, `warnings_count`, `errors_count` become record fields; the
per-column dict values become ordered association lists. -/
structure Metrics where
  row_count : Nat
  column_count : Nat
  missing_pct : List (String × Rat)
  largest_missing_business_gap : List (String × Nat)
  latest_date : List (String × Option Int)
  outlier_counts : List (String × Nat)
  stale_series : List String
  warnings_count : Nat
  errors_count : Nat
  deriving DecidableEq, Repr

/-- The `ValidationReport` dataclass. -/
structure ValidationReport where
  errors : List Msg
  warnings : List Msg
  metrics : Metrics
  deriving DecidableEq, Repr

/-- `ValidationReport.is_success`. -/
def ValidationReport.isSuccess (r : ValidationReport) : Bool :=
  r.errors.length == 0

/-- Code-point lexicographic string comparison (Python `<=` on `str`),
written structurally over the character lists so that it evaluates by
kernel reduction. -/
def charsLe : List Char → List Char → Bool
  | [], _ => true
  | _ :: _, [] => false
  | a :: as, b :: bs =>
    if a.toNat < b.toNat then true
    else if b.toNat < a.toNat then false
    else charsLe as bs

/-- Python `a <= b` on strings. -/
def strLe (a b : String) : Bool := charsLe a.data b.data

/-- Python `s.endswith(suffix)`. -/
def strEndsWith (s suffix : String) : Bool :=
  suffix.data.isSuffixOf s.data

/-- Python `s.startswith(p)`. -/
def strStartsWith (s p : String) : Bool :=
  p.data.isPrefixOf s.data

/-- Lookup in an ordered association list (a Python dict read). -/
def lookupKey (c : String) (m : List (String × α)) : Option α :=
  (m.find? (fun p => p.1 == c)).map (fun p => p.2)

/-- Remove every binding of a key. -/
def removeKey (c : String) (m : List (String × α)) : List (String × α) :=
  m.filter (fun p => p.1 != c)

/-- First-wins insert: used for dict writes where any later write to the same
key would recompute the identical value, so keeping the first value and the
first position reproduces Python's overwrite-in-place exactly. -/
def insertFirstWins (c : String) (v : α) (m : List (String × α)) :
    List (String × α) :=
  (c, v) :: removeKey c m

/-- Python dict assignment `m[c] = v`: overwrite in place if the key exists,
else append at the end. -/
def dictInsert (m : List (String × α)) (c : String) (v : α) :
    List (String × α) :=
  if m.any (fun p => p.1 == c) then
    m.map (fun p => if p.1 == c then (c, v) else p)
  else
    m ++ [(c, v)]

/-- The inner fold of `_largest_consecutive_missing_business_days`:
`max_gap`/`current` accumulation over the missingness flags. -/
def gapGo (maxGap current : Nat) : List Bool → Nat
  | [] => maxGap
  | b :: t =>
    if b then gapGo (max maxGap (current + 1)) (current + 1) t
    else gapGo maxGap 0 t

/-- `_largest_consecutive_missing_business_days` applied to the isna flags of
the (already reindexed) series: 0 on an empty series, otherwise the fold. -/
def largestConsecutiveMissingBusinessDays (l : List Bool) : Nat :=
  if l.isEmpty then 0 else gapGo 0 0 l

/-- Smallest element of a non-empty date list (`index.min()`); junk on []. -/
def datesMin : List Int → Int
  | [] => 0
  | d :: rest => rest.foldl min d

/-- Largest element of a non-empty date list (`index.max()`); junk on []. -/
def datesMax : List Int → Int
  | [] => 0
  | d :: rest => rest.foldl max d

/-- The isna flags of `series.reindex(pd.date_range(index.min(), index.max(),
freq="B"))`: for every business day of the span, null if the day is absent
from the index or the cell at that day is null. -/
def reindexIsNA (dates : List Int) (cells : List Cell) : List Bool :=
  (bdayRange (datesMin dates) (datesMax dates)).map (fun b =>
    match (dates.zip cells).find? (fun p => p.1 == b) with
    | some p => p.2.isNA
    | none => true)

/-- The per-column `largest_missing_business_gap` metric value. -/
def colGapValue (dates : List Int) (col : Col) : Nat :=
  largestConsecutiveMissingBusinessDays (reindexIsNA dates col.cells)

/-- Maximum of a list of dates as an option (`index.max()` guarded by
`if len(non_na_index)`). -/
def listMaxI : List Int → Option Int
  | [] => none
  | d :: rest => some (rest.foldl max d)

/-- The per-column `latest_date` metric value: max index date holding a
non-null cell, or none. -/
def latestDateValue (dates : List Int) (col : Col) : Option Int :=
  listMaxI ((dates.zip col.cells).filterMap
    (fun p => if p.2.isNA then none else some p.1))

/-- Round half to even (Python `round`) at the integer position. -/
def roundHalfEven (q : Rat) : Int :=
  let f : Int := q.floor
  let r : Rat := q - (f : Rat)
  if r < 1 / 2 then f
  else if r > 1 / 2 then f + 1
  else if f % 2 = 0 then f else f + 1

/-- Python `round(x, 4)`. -/
def round4 (q : Rat) : Rat := (roundHalfEven (q * 10000) : Rat) / 10000

/-- The per-column `missing_pct` metric value:
`round(series.isna().mean() * 100, 4)`. Only observed for non-empty tables
(an empty table with a present required column makes the engine raise
before the report is returned). -/
def missingPctValue (rows : Nat) (col : Col) : Rat :=
  round4 (((col.cells.countP Cell.isNA : Rat) / (rows : Rat)) * 100)

/-- Which change series `_zscore_flags` computes: percent change for market
columns, absolute difference for macro columns. -/
inductive ChangeKind where
  | pct
  | absdiff
  deriving DecidableEq, Repr

/-- One entry of the change series from a current and previous value.
`pct_change` at a zero previous value gives inf/NaN in float64, which the
final NaN-tolerant comparison never flags; it is modelled as null. -/
def changeOf (kind : ChangeKind) (cur prev : Option Rat) : Option Rat :=
  match cur, prev with
  | some a, some b =>
    match kind with
    | .pct => if b = 0 then none else some (a / b - 1)
    | .absdiff => some (a - b)
  | _, _ => none

/-- `values.pct_change()` / `values.diff()`: element-wise change between an
entry and its predecessor, null when either is null (the first entry is
always null). -/
def changeSeries (kind : ChangeKind) (v : List (Option Rat)) :
    List (Option Rat) :=
  (v.zip (none :: v.dropLast)).map (fun p => changeOf kind p.1 p.2)

/-- Mean of the non-null change values (`changes.mean(skipna=True)`). -/
def sampleMean (vals : List Rat) : Rat := vals.sum / (vals.length : Rat)

/-- Sample variance, ddof = 1 (`changes.std(skipna=True)` squared). -/
def sampleVariance (vals : List Rat) : Rat :=
  (vals.map (fun x => (x - sampleMean vals) ^ 2)).sum /
    ((vals.length : Rat) - 1)

/-- `_zscore_flags`: change series, then z-score flags `|z| > 8`. The guard
`std is None or np.isclose(std, 0, equal_nan=True)` is: std undefined (fewer
than two non-null changes gives NaN with ddof = 1) or `std ≤ 1e-8`, i.e.
`variance ≤ 1e-16`; then no row is flagged. `|z| > 8` is squared into
`(x - mean)^2 > 64 * variance` to stay in exact rationals. -/
def zscoreFlags (v : List (Option Rat)) (kind : ChangeKind) : List Bool :=
  if v.isEmpty then []
  else if ((changeSeries kind v).filterMap id).length ≤ 1 then
    List.replicate v.length false
  else if
      sampleVariance ((changeSeries kind v).filterMap id) ≤ 1 / 10 ^ 16 then
    List.replicate v.length false
  else
    (changeSeries kind v).map (fun o =>
      match o with
      | none => false
      | some x =>
        decide
          ((x - sampleMean ((changeSeries kind v).filterMap id)) ^ 2 >
            64 * sampleVariance ((changeSeries kind v).filterMap id)))

/-- `int(flags.fillna(False).sum())`. -/
def countTrue (l : List Bool) : Nat := l.countP id

/-- The flagged-outlier count recorded for one column. -/
def outlierCountValue (kind : ChangeKind) (col : Col) : Nat :=
  countTrue (zscoreFlags (col.cells.map cellToNumeric) kind)

/-- Count of strictly negative numeric values in a column:
`int((to_numeric(data[col], errors="coerce") < 0).fillna(False).sum())`. -/
def negCount (cells : List Cell) : Nat :=
  cells.countP (fun cl =>
    match cellToNumeric cl with
    | some q => decide (q < 0)
    | none => false)

/-- `series.empty or series.dropna().empty`. -/
def cellsEmptyOrAllNull (cells : List Cell) : Bool :=
  cells.isEmpty || cells.all Cell.isNA

/-- `num.isna().sum() != series.isna().sum()` after numeric coercion:
some non-null cell is not a valid number. -/
def mixedNonNumeric (cells : List Cell) : Bool :=
  cells.countP (fun cl => (cellToNumeric cl).isNone) != cells.countP Cell.isNA

/-- `data.index.duplicated().any()`. -/
def hasDupIdx : List Int → Bool
  | [] => false
  | d :: rest => rest.contains d || hasDupIdx rest

/-- `data.index.is_monotonic_increasing` (non-strict). -/
def isMonotoneInts : List Int → Bool
  | [] => true
  | [_] => true
  | a :: b :: rest => decide (a ≤ b) && isMonotoneInts (b :: rest)

/-- Schema-check errors of `validate_dataset` lines 69-78, in append order:
index name, index type, then (for a datetime index) duplicates and
monotonicity. -/
def schemaErrors (f : Frame) : List Msg :=
  (if f.indexName = some "date" then [] else [Msg.indexNameErr]) ++
    (match f.index with
     | .nonDatetime _ => [Msg.indexTypeErr]
     | .datetime ds =>
       (if hasDupIdx ds then [Msg.duplicateDates] else []) ++
         (if isMonotoneInts ds then [] else [Msg.nonMonotonicDates]))

/-- `sorted(set(ids) - set(data.columns.tolist()))`: the ids of `ids` absent
from the table, deduplicated and sorted in code-point lexicographic order
(Python string order). -/
def sortedMissing (ids : List String) (f : Frame) : List String :=
  List.insertionSort (fun a b => strLe a b = true)
    ((ids.filter (fun c => decide (c ∉ f.colNames))).dedup)

/-- Accumulated output of the per-required-column loop (lines 88-110):
errors, warnings and the three per-column metric maps. -/
structure ColStageOut where
  errors : List Msg
  warnings : List Msg
  missing_pct : List (String × Rat)
  gaps : List (String × Nat)
  latest : List (String × Option Int)
  deriving DecidableEq, Repr

/-- The per-required-column loop, as the pure value it produces when the
business-day reindexing does not raise. Entries for the column at the head
come before those of the tail, as in the Python iteration order. -/
def pureColFold (data : Frame) : List String → ColStageOut
  | [] => ⟨[], [], [], [], []⟩
  | c :: rest =>
    let out := pureColFold data rest
    match data.getCol c with
    | none => out
    | some col =>
      { errors :=
          (if cellsEmptyOrAllNull col.cells then [Msg.emptyData c] else []) ++
            (if mixedNonNumeric col.cells then [Msg.mixedValues c]
             else []) ++ out.errors
        warnings :=
          (if col.objectDtype then [Msg.objectDtypeWarn c] else []) ++
            out.warnings
        missing_pct :=
          insertFirstWins c (missingPctValue (frameRows data) col)
            out.missing_pct
        gaps := insertFirstWins c (colGapValue data.indexDates col) out.gaps
        latest :=
          insertFirstWins c (latestDateValue data.indexDates col)
            out.latest }

/-- Whether the business-day reindexing (lines 105-106) raises:
`pd.date_range` raises on a non-datetime index (min/max are not date-like)
and on an empty datetime index (min/max are NaT); `Series.reindex` raises on
an index with duplicate labels. -/
def gapFail (f : Frame) : Bool :=
  match f.index with
  | .nonDatetime _ => true
  | .datetime ds => ds.isEmpty || hasDupIdx ds

/-- `validate_dataset` raises iff the per-required-column loop reaches the
reindexing step (some required column is present) on a bad index. -/
def crashesOnReindex (data : Frame) (req : List String) : Bool :=
  req.any (fun c => (data.getCol c).isSome) && gapFail data

/-- The five fixed macro series ids of the impossible-value rule set. -/
def fixedImpossibleIds : List String :=
  ["fred_DGS10", "fred_DGS2", "fred_CPIAUCSL", "fred_UNRATE", "fred_BAA10YM"]

/-- The column ids the sign-validity rules monitor, in rule order: the five
fixed macro ids, then every table column ending in "__adj_close", then every
table column ending in "__volume". -/
def impossibleRuleIds (data : Frame) : List String :=
  fixedImpossibleIds ++
    (data.colNames.filter (fun c => strEndsWith c "__adj_close")) ++
    (data.colNames.filter (fun c => strEndsWith c "__volume"))

/-- The sign-validity (impossible-value) warnings, lines 112-129: for every
monitored column present in the table with a positive count of negative
values, one warning carrying the count. -/
def impossibleStage (data : Frame) : List Msg :=
  (impossibleRuleIds data).filterMap (fun c =>
    match data.getCol c with
    | none => none
    | some col =>
      if negCount col.cells > 0 then
        some (Msg.impossibleValues c (negCount col.cells))
      else none)

/-- One statistical-outlier loop (lines 131-138 for market columns with
percent change, 140-147 for macro columns with absolute difference):
threads the shared `outlier_counts` dict and appends warnings in order. -/
def outlierFold (data : Frame) (kind : ChangeKind)
    (mk : String → Nat → Msg) :
    List String → List (String × Nat) × List Msg →
      List (String × Nat) × List Msg
  | [], acc => acc
  | c :: rest, acc =>
    match data.getCol c with
    | none => outlierFold data kind mk rest acc
    | some col =>
      let cnt := outlierCountValue kind col
      outlierFold data kind mk rest
        (dictInsert acc.1 c cnt,
          acc.2 ++ (if cnt > 0 then [mk c cnt] else []))

/-- The staleness threshold of lines 155-156: 45 days when the column id
starts with "fred_", 7 days otherwise. -/
def staleThreshold (c : String) : Int :=
  if strStartsWith c "fred_" then 45 else 7

/-- The staleness loop of lines 149-160 over the `latest_date` metric map:
entries with no latest date are skipped; an age strictly above the threshold
yields one warning and one `stale_series` entry, in iteration order. -/
def stalenessStage (now : Int) :
    List (String × Option Int) → List Msg × List String
  | [] => ([], [])
  | (c, od) :: rest =>
    let out := stalenessStage now rest
    match od with
    | none => out
    | some d =>
      if now - d > staleThreshold c then
        (Msg.stale c d (now - d) (staleThreshold c) :: out.1, c :: out.2)
      else out

/-- The report `validate_dataset` builds when it does not raise. -/
def buildReport (data : Frame) (req opt mkt frd : List String) (now : Int) :
    ValidationReport :=
  let missReq := sortedMissing req data
  let missErr : List Msg :=
    if missReq.isEmpty then [] else [Msg.missingColumns missReq]
  let optWarns : List Msg :=
    (sortedMissing opt data).map Msg.optionalUnavailable
  let colOut := pureColFold data req
  let mo := outlierFold data ChangeKind.pct Msg.outlierMarket mkt ([], [])
  let fo := outlierFold data ChangeKind.absdiff Msg.outlierFred frd
    (mo.1, [])
  let st := stalenessStage now colOut.latest
  let errors := schemaErrors data ++ missErr ++ colOut.errors
  let warnings :=
    optWarns ++ colOut.warnings ++ impossibleStage data ++ mo.2 ++ fo.2 ++
      st.1
  { errors := errors
    warnings := warnings
    metrics :=
      { row_count := frameRows data
        column_count := data.cols.length
        missing_pct := colOut.missing_pct
        largest_missing_business_gap := colOut.gaps
        latest_date := colOut.latest
        outlier_counts := fo.1
        stale_series := st.2
        warnings_count := warnings.length
        errors_count := errors.length } }

/-- `validate_dataset`: raises (an `Except.error`) exactly when business-day
reindexing is reached on a malformed index, otherwise returns the report.
`now` is the wall-clock current date (`datetime.now(timezone.utc).date()`),
made an explicit argument as the engine's only non-functional input. -/
def validateDataset (data : Frame) (req opt mkt frd : List String)
    (now : Int) : Except String ValidationReport :=
  if crashesOnReindex data req then
    Except.error
      "ValueError: business-day calendar reindexing failed on malformed index"
  else
    Except.ok (buildReport data req opt mkt frd now)

/-- `DatasetWriteResult`: one record per physical file written by
`_write_parquet`; the written file holds exactly `rows` rows at `path`. -/
structure DatasetWriteResult where
  path : String
  rows : Nat
  deriving DecidableEq, Repr

/-- Calendar year of an epoch day (proleptic Gregorian; the standard
days-to-civil conversion). `mp` is the month shifted so the year starts in
March; `mp < 10` is March..December of civil year `y`, otherwise
January/February of `y + 1`. -/
def yearOfDay (z0 : Int) : Int :=
  let z := z0 + 719468
  let era := (if 0 ≤ z then z else z - 146096) / 146097
  let doe := z - era * 146097
  let yoe := (doe - doe / 1460 + doe / 36524 - doe / 146096) / 365
  let y := yoe + era * 400
  let doy := doe - (365 * yoe + yoe / 4 - yoe / 100)
  let mp := (5 * doy + 2) / 153
  if mp < 10 then y else y + 1

/-- `df.empty`: true when any axis has length 0. -/
def frameEmpty (df : Frame) : Bool :=
  frameRows df == 0 || df.cols.isEmpty

/-- `df[df.index.year == year]`: row filter by calendar year. Year
extraction requires the datetime index the pipeline always supplies; on a
non-datetime index the frame is returned unchanged (unreachable here). -/
def frameFilterYear (df : Frame) (y : Int) : Frame :=
  match df.index with
  | .nonDatetime _ => df
  | .datetime ds =>
    { indexName := df.indexName
      index := .datetime (ds.filter (fun d => yearOfDay d == y))
      cols := df.cols.map (fun p =>
        (p.1,
          { objectDtype := p.2.objectDtype
            cells := ((ds.zip p.2.cells).filter
              (fun q => yearOfDay q.1 == y)).map (fun q => q.2) })) }

/-- `_write_parquet`: writes `df` at `path` and returns the result record. -/
def writeParquet (df : Frame) (path : String) : DatasetWriteResult :=
  { path := path, rows := frameRows df }

/-- The per-year partition path
`<base>/raw/source=<source>/year=<year>/run_id=<runId>.parquet`. -/
def rawPartitionPath (baseDir source : String) (year : Int)
    (runId : String) : String :=
  baseDir ++ "/raw/source=" ++ source ++ "/year=" ++ toString year ++
    "/run_id=" ++ runId ++ ".parquet"

/-- The standardized path `<base>/standardized/run_id=<runId>.parquet`. -/
def standardizedPath (baseDir runId : String) : String :=
  baseDir ++ "/standardized/run_id=" ++ runId ++ ".parquet"

/-- `sorted(df.index.year.unique().tolist())`. -/
def sortedUniqueYears (df : Frame) : List Int :=
  List.insertionSort (fun a b => a ≤ b) (df.indexDates.map yearOfDay).dedup

/-- `write_partitioned_by_year`: nothing on an empty frame, otherwise one
file per calendar year of the index. Each result in the returned list
corresponds to exactly one physical file written. -/
def writePartitionedByYear (df : Frame) (baseDir source runId : String) :
    List DatasetWriteResult :=
  if frameEmpty df then []
  else
    (sortedUniqueYears df).map (fun y =>
      writeParquet (frameFilterYear df y)
        (rawPartitionPath baseDir source y runId))

/-- `write_standardized`: unconditionally writes the single standardized
file and returns its result record. -/
def writeStandardized (df : Frame) (baseDir runId : String) :
    DatasetWriteResult :=
  writeParquet df (standardizedPath baseDir runId)

/-- The observable states of the catalog file: absent, present with a single
top-level object, or present with a top-level array of entries. -/
inductive CatalogFile (α : Type) where
  | absent
  | objectTop (e : α)
  | arrayTop (es : List α)
  deriving DecidableEq, Repr

/-- The entry sequence a catalog file state denotes: an absent file is the
empty sequence; a single-object file is coerced to a one-element sequence. -/
def catalogEntries : CatalogFile α → List α
  | .absent => []
  | .objectTop e => [e]
  | .arrayTop es => es

/-- `append_catalog_entry`: read the existing sequence (with the
single-object coercion), append the new entry, overwrite the file with the
resulting array. -/
def appendCatalogEntry (f : CatalogFile α) (e : α) : CatalogFile α :=
  CatalogFile.arrayTop (catalogEntries f ++ [e])

/-- Classifier for the missing-required-columns entry. -/
def Msg.isMissingCols : Msg → Bool
  | .missingColumns _ => true
  | _ => false

/-- Classifier for the impossible-values (sign-validity) entry. -/
def Msg.isImpossible : Msg → Bool
  | .impossibleValues _ _ => true
  | _ => false

/-- Classifier for a staleness warning about a given column. -/
def Msg.isStaleFor (c : String) : Msg → Bool
  | .stale c' _ _ _ => c' == c
  | _ => false

/-- Specification-side recursion for the gap fold: the longest run of `true`
in the list, given that a run of `c` trues is already in progress. -/
def runMax (c : Nat) : List Bool → Nat
  | [] => 0
  | b :: t => if b then max (c + 1) (runMax (c + 1) t) else runMax 0 t

/-- What one `latest_date` entry contributes to the staleness warnings. -/
def staleEntryMsg (now : Int) (p : String × Option Int) : Option Msg :=
  match p.2 with
  | none => none
  | some d =>
    if now - d > staleThreshold p.1 then
      some (Msg.stale p.1 d (now - d) (staleThreshold p.1))
    else none

/-- What one `latest_date` entry contributes to `stale_series`. -/
def staleEntryName (now : Int) (p : String × Option Int) : Option String :=
  match p.2 with
  | none => none
  | some d => if now - d > staleThreshold p.1 then some p.1 else none

/-- Modelled from the spec: the condition "the standard deviation is zero or
undefined" on the change series — undefined means fewer than two non-null
observations (sample std with ddof = 1), zero means zero variance. Used to
compare the spec's branch condition with the code's
`np.isclose(std, 0, equal_nan=True)` test. -/
def specStdZeroOrUndefined (v : List (Option Rat)) (kind : ChangeKind) :
    Prop :=
  ((changeSeries kind v).filterMap id).length ≤ 1 ∨
    sampleVariance ((changeSeries kind v).filterMap id) = 0

/-- An all-numeric, numeric-dtype column. -/
def wColNum (vs : List Rat) : Col :=
  { objectDtype := false, cells := vs.map Cell.num }

/-- A table whose index is not a `DatetimeIndex` (labels do not parse as
dates) but whose required macro column is present and well formed. -/
def badIndexFrame : Frame :=
  { indexName := some "date"
    index := IndexData.nonDatetime ["a", "b"]
    cols := [("fred_DGS10", wColNum [1, 2])] }

/-- A table with one column "m" (no "fred_" prefix), one observation on
2024-01-01 (epoch day 19723). -/
def macroSetFrame : Frame :=
  { indexName := some "date"
    index := IndexData.datetime [19723]
    cols := [("m", wColNum [1])] }

/-- A clean two-row table holding only a column "x". -/
def presentOnlyFrame : Frame :=
  { indexName := some "date"
    index := IndexData.datetime [19723, 19724]
    cols := [("x", wColNum [1, 2])] }

/-- A two-row table whose adjusted-close column holds one negative value. -/
def negFrame : Frame :=
  { indexName := some "date"
    index := IndexData.datetime [19723, 19724]
    cols := [("yfin_SPY__adj_close", wColNum [-1, 2])] }

/-- A three-row table with a constant-valued market column. -/
def constFrame : Frame :=
  { indexName := some "date"
    index := IndexData.datetime [19723, 19724, 19725]
    cols := [("yfin_SPY__adj_close", wColNum [5, 5, 5])] }

/-- A table with observations on Monday 19723 and Friday 19727 only, so the
business-day reindex has a three-day missing run (Tue, Wed, Thu). -/
def gapFrame : Frame :=
  { indexName := some "date"
    index := IndexData.datetime [19723, 19727]
    cols := [("fred_DGS10", wColNum [1, 2])] }

theorem charsLe_total (s : List Char) :
    ∀ t : List Char, charsLe s t = true ∨ charsLe t s = true := by
  induction s with
  | nil => intro t; left; rfl
  | cons a as ih =>
    intro t
    cases t with
    | nil => right; rfl
    | cons b bs =>
      rw [charsLe, charsLe]
      by_cases h1 : a.toNat < b.toNat
      · left; rw [if_pos h1]
      · by_cases h2 : b.toNat < a.toNat
        · right; rw [if_pos h2]
        · rw [if_neg h1, if_neg h2, if_neg h2, if_neg h1]
          exact ih bs

theorem charsLe_trans (s : List Char) :
    ∀ t u : List Char, charsLe s t = true → charsLe t u = true →
      charsLe s u = true := by
  induction s with
  | nil => intro t u _ _; rfl
  | cons a as ih =>
    intro t u h1 h2
    cases t with
    | nil => rw [charsLe] at h1; cases h1
    | cons b bs =>
      cases u with
      | nil => rw [charsLe] at h2; cases h2
      | cons c cs =>
        rw [charsLe] at h1 h2 ⊢
        by_cases hab : a.toNat < b.toNat
        · by_cases hbc : b.toNat < c.toNat
          · rw [if_pos (by omega : a.toNat < c.toNat)]
          · by_cases hcb : c.toNat < b.toNat
            · rw [if_neg hbc, if_pos hcb] at h2; cases h2
            · rw [if_pos (by omega : a.toNat < c.toNat)]
        · by_cases hba : b.toNat < a.toNat
          · rw [if_neg hab, if_pos hba] at h1; cases h1
          · rw [if_neg hab, if_neg hba] at h1
            by_cases hbc : b.toNat < c.toNat
            · rw [if_pos (by omega : a.toNat < c.toNat)]
            · by_cases hcb : c.toNat < b.toNat
              · rw [if_neg hbc, if_pos hcb] at h2; cases h2
              · rw [if_neg hbc, if_neg hcb] at h2
                rw [if_neg (by omega : ¬ a.toNat < c.toNat),
                  if_neg (by omega : ¬ c.toNat < a.toNat)]
                exact ih bs cs h1 h2

instance : IsTotal String (fun a b => strLe a b = true) :=
  ⟨fun a b => charsLe_total a.data b.data⟩

instance : IsTrans String (fun a b => strLe a b = true) :=
  ⟨fun a b c h1 h2 => charsLe_trans a.data b.data c.data h1 h2⟩

theorem lookupKey_cons (c : String) (p : String × α) (m : List (String × α)) :
    lookupKey c (p :: m) =
      if p.1 = c then some p.2 else lookupKey c m := by
  by_cases h : p.1 = c <;> simp [lookupKey, List.find?_cons, h]

theorem lookupKey_removeKey_ne {c c' : String} (h : c ≠ c')
    (m : List (String × α)) :
    lookupKey c (removeKey c' m) = lookupKey c m := by
  induction m with
  | nil => rfl
  | cons p t ih =>
    rw [removeKey, List.filter_cons]
    by_cases hp : p.1 = c'
    · have hpc : p.1 ≠ c := by
        rw [hp]; exact Ne.symm h
      rw [show (p.1 != c') = false by simp [hp]]
      simp only [Bool.false_eq_true, if_false]
      rw [show List.filter (fun p => p.1 != c') t = removeKey c' t from rfl,
        ih, lookupKey_cons, if_neg hpc]
    · rw [show (p.1 != c') = true by simp [hp], if_pos rfl,
        lookupKey_cons, lookupKey_cons]
      by_cases hc : p.1 = c
      · rw [if_pos hc, if_pos hc]
      · rw [if_neg hc, if_neg hc,
          show List.filter (fun p => p.1 != c') t = removeKey c' t from rfl,
          ih]

theorem lookupKey_insertFirstWins_self (c : String) (v : α)
    (m : List (String × α)) :
    lookupKey c (insertFirstWins c v m) = some v := by
  rw [insertFirstWins, lookupKey_cons, if_pos rfl]

theorem lookupKey_insertFirstWins_ne {c c' : String} (h : c ≠ c') (v : α)
    (m : List (String × α)) :
    lookupKey c (insertFirstWins c' v m) = lookupKey c m := by
  rw [insertFirstWins, lookupKey_cons, if_neg (Ne.symm h)]
  exact lookupKey_removeKey_ne h m

theorem lookupKey_map_replace {c c' : String} (h : c' ≠ c) (v : α)
    (t : List (String × α)) :
    lookupKey c'
        (t.map (fun p => if p.1 == c then (c, v) else p)) =
      lookupKey c' t := by
  induction t with
  | nil => rfl
  | cons p t ih =>
    rw [List.map_cons]
    by_cases hp : p.1 = c
    · rw [if_pos (by simpa using hp), lookupKey_cons, lookupKey_cons]
      have h1 : (c, v).1 ≠ c' := Ne.symm h
      have h2 : p.1 ≠ c' := by rw [hp]; exact Ne.symm h
      rw [if_neg h1, if_neg h2, ih]
    · rw [if_neg (by simpa using hp), lookupKey_cons, lookupKey_cons]
      by_cases hpc : p.1 = c'
      · rw [if_pos hpc, if_pos hpc]
      · rw [if_neg hpc, if_neg hpc, ih]

theorem lookupKey_dictInsert (m : List (String × α)) (c c' : String)
    (v : α) :
    lookupKey c' (dictInsert m c v) =
      if c' = c then some v else lookupKey c' m := by
  induction m with
  | nil =>
    rw [show dictInsert ([] : List (String × α)) c v = [(c, v)] from rfl,
      lookupKey_cons]
    by_cases hc : c' = c
    · rw [if_pos hc, if_pos hc.symm]
    · rw [if_neg hc, if_neg (Ne.symm hc)]
  | cons p t ih =>
    by_cases hp : p.1 = c
    · have hany : ((p :: t).any fun q => q.1 == c) = true := by
        simp [hp]
      rw [dictInsert, if_pos hany, List.map_cons, if_pos (by simpa using hp),
        lookupKey_cons]
      by_cases hc : c' = c
      · rw [if_pos hc.symm, if_pos hc]
      · rw [if_neg (Ne.symm hc), if_neg hc, lookupKey_map_replace hc,
          lookupKey_cons]
        have hpc : p.1 ≠ c' := by rw [hp]; exact Ne.symm hc
        rw [if_neg hpc]
    · have hstep : dictInsert (p :: t) c v = p :: dictInsert t c v := by
        by_cases ht : (t.any fun q => q.1 == c) = true
        · have hany : ((p :: t).any fun q => q.1 == c) = true := by
            simp only [List.any_cons, Bool.or_eq_true]; right; exact ht
          rw [dictInsert, if_pos hany, List.map_cons,
            if_neg (by simpa using hp), dictInsert, if_pos ht]
        · have hany : ¬ ((p :: t).any fun q => q.1 == c) = true := by
            simp only [List.any_cons, Bool.or_eq_true]
            rintro (h1 | h2)
            · exact hp (by simpa using h1)
            · exact ht h2
          rw [dictInsert, if_neg hany, dictInsert, if_neg ht,
            List.cons_append]
      rw [hstep, lookupKey_cons]
      by_cases hpc : p.1 = c'
      · have hcc : c' ≠ c := by
          intro h; rw [h] at hpc; exact hp hpc
        rw [if_pos hpc, if_neg hcc, lookupKey_cons, if_pos hpc]
      · rw [if_neg hpc, ih]
        by_cases hc : c' = c
        · rw [if_pos hc, if_pos hc]
        · rw [if_neg hc, if_neg hc, lookupKey_cons, if_neg hpc]

theorem gapGo_eq (l : List Bool) :
    ∀ m c, c ≤ m → gapGo m c l = max m (runMax c l) := by
  induction l with
  | nil => intro m c _; simp [gapGo, runMax]
  | cons b t ih =>
    intro m c h
    cases b
    · simp only [gapGo, runMax, Bool.false_eq_true, if_false]
      exact ih m 0 (Nat.zero_le m)
    · simp only [gapGo, runMax, if_true]
      rw [ih (max m (c + 1)) (c + 1) (le_max_right m (c + 1)),
        Nat.max_assoc]

theorem largestRun_eq_runMax (l : List Bool) :
    largestConsecutiveMissingBusinessDays l = runMax 0 l := by
  cases l with
  | nil => rfl
  | cons b t =>
    rw [largestConsecutiveMissingBusinessDays]
    simp only [List.isEmpty_cons, Bool.false_eq_true, if_false]
    rw [gapGo_eq (b :: t) 0 0 (Nat.le_refl 0), Nat.zero_max]

theorem runMax_mono (l : List Bool) :
    ∀ {c c' : Nat}, c ≤ c' → runMax c l ≤ runMax c' l := by
  induction l with
  | nil => intro c c' _; exact Nat.le_refl 0
  | cons b t ih =>
    intro c c' h
    cases b
    · simp only [runMax, Bool.false_eq_true, if_false]
      exact Nat.le_refl _
    · simp only [runMax, if_true]
      exact max_le_max (Nat.succ_le_succ h) (ih (Nat.succ_le_succ h))

theorem replicate_true_prefix_le (n : Nat) :
    ∀ (c : Nat) (l : List Bool), List.replicate n true <+: l →
      c + n ≤ max c (runMax c l) := by
  induction n with
  | zero => intro c l _; exact le_max_left c (runMax c l)
  | succ n ih =>
    intro c l h
    cases l with
    | nil =>
      rw [List.prefix_nil] at h
      exact absurd h (by simp [List.replicate_succ])
    | cons b t =>
      rw [List.replicate_succ, List.cons_prefix_cons] at h
      obtain ⟨hb, ht⟩ := h
      cases hb
      simp only [runMax, if_true]
      have h1 := ih (c + 1) t ht
      have h2 : c + (n + 1) = (c + 1) + n := by omega
      rw [h2]
      exact le_trans h1 (le_max_right c _)

theorem replicate_true_infix_le (l : List Bool) :
    ∀ n : Nat, List.replicate n true <:+: l → n ≤ runMax 0 l := by
  induction l with
  | nil =>
    intro n h
    rw [List.infix_nil] at h
    have : n = 0 := by simpa using congrArg List.length h
    omega
  | cons b t ih =>
    intro n h
    rcases List.infix_cons_iff.mp h with hpre | hinf
    · have := replicate_true_prefix_le n 0 (b :: t) hpre
      simpa using this
    · have h1 := ih n hinf
      have h2 : runMax 0 t ≤ runMax 0 (b :: t) := by
        cases b
        · simp [runMax]
        · simp only [runMax, if_true]
          exact le_trans (runMax_mono t (Nat.zero_le 1)) (le_max_right _ _)
      exact le_trans h1 h2

theorem replicate_runMax_infix (l : List Bool) :
    ∀ c : Nat,
      List.replicate (runMax c l) true <:+: List.replicate c true ++ l := by
  induction l with
  | nil => intro c; simp only [runMax]; exact List.nil_infix
  | cons b t ih =>
    intro c
    cases b
    · simp only [runMax, Bool.false_eq_true, if_false]
      have h1 : List.replicate (runMax 0 t) true <:+: t := by
        simpa using ih 0
      have h2 : t <:+ List.replicate c true ++ false :: t :=
        (List.suffix_cons false t).trans (List.suffix_append _ _)
      exact h1.trans h2.isInfix
    · simp only [runMax, if_true]
      have hsplit :
          List.replicate c true ++ true :: t =
            List.replicate (c + 1) true ++ t := by
        rw [List.replicate_succ', List.append_assoc]
        rfl
      rcases max_choice (c + 1) (runMax (c + 1) t) with hmax | hmax
      · rw [hmax, hsplit]
        exact (List.prefix_append _ _).isInfix
      · rw [hmax, hsplit]
        exact ih (c + 1)

/-- Correctness of the gap fold of
`_largest_consecutive_missing_business_days`: its result is exactly the
length of the longest contiguous run of `true` (null) flags — a run of `n`
nulls exists somewhere in the list iff `n` is at most the returned value. -/
theorem replicate_infix_iff_le_largestRun (l : List Bool) (n : Nat) :
    List.replicate n true <:+: l ↔
      n ≤ largestConsecutiveMissingBusinessDays l := by
  rw [largestRun_eq_runMax]
  constructor
  · exact replicate_true_infix_le l n
  · intro h
    have h1 : List.replicate (runMax 0 l) true <:+: l := by
      simpa using replicate_runMax_infix l 0
    have h2 :
        List.replicate n true <+: List.replicate (runMax 0 l) true := by
      have hsum : runMax 0 l = n + (runMax 0 l - n) := by omega
      rw [hsum, List.replicate_add]
      exact List.prefix_append _ _
    exact h2.isInfix.trans h1

theorem schemaErrors_mem (f : Frame) (m : Msg) (hm : m ∈ schemaErrors f) :
    m = Msg.indexNameErr ∨ m = Msg.indexTypeErr ∨
      m = Msg.duplicateDates ∨ m = Msg.nonMonotonicDates := by
  rw [schemaErrors] at hm
  rcases List.mem_append.mp hm with h | h
  · split at h
    · simp at h
    · simp at h; tauto
  · split at h
    · simp at h; tauto
    · rcases List.mem_append.mp h with h2 | h2 <;> split at h2 <;>
        simp at h2 <;> tauto

theorem pureColFold_errors_mem (data : Frame) :
    ∀ (cols : List String), ∀ m ∈ (pureColFold data cols).errors,
      (∃ c, m = Msg.emptyData c) ∨ ∃ c, m = Msg.mixedValues c := by
  intro cols
  induction cols with
  | nil => intro m hm; simp [pureColFold] at hm
  | cons c rest ih =>
    intro m hm
    rw [pureColFold] at hm
    cases hg : data.getCol c with
    | none =>
      rw [hg] at hm
      exact ih m hm
    | some col =>
      rw [hg] at hm
      simp only at hm
      rcases List.mem_append.mp hm with h | h
      · rcases List.mem_append.mp h with h2 | h2 <;> split at h2 <;>
          simp at h2 <;> tauto
      · exact ih m h

theorem pureColFold_warnings_mem (data : Frame) :
    ∀ (cols : List String), ∀ m ∈ (pureColFold data cols).warnings,
      ∃ c, m = Msg.objectDtypeWarn c := by
  intro cols
  induction cols with
  | nil => intro m hm; simp [pureColFold] at hm
  | cons c rest ih =>
    intro m hm
    rw [pureColFold] at hm
    cases hg : data.getCol c with
    | none =>
      rw [hg] at hm
      exact ih m hm
    | some col =>
      rw [hg] at hm
      simp only at hm
      rcases List.mem_append.mp hm with h | h
      · split at h
        · simp at h; tauto
        · simp at h
      · exact ih m h

theorem buildReport_errors (data : Frame) (req opt mkt frd : List String)
    (now : Int) :
    (buildReport data req opt mkt frd now).errors =
      schemaErrors data ++
        (if (sortedMissing req data).isEmpty then []
         else [Msg.missingColumns (sortedMissing req data)]) ++
        (pureColFold data req).errors := rfl

theorem buildReport_warnings (data : Frame) (req opt mkt frd : List String)
    (now : Int) :
    (buildReport data req opt mkt frd now).warnings =
      (sortedMissing opt data).map Msg.optionalUnavailable ++
        (pureColFold data req).warnings ++ impossibleStage data ++
        (outlierFold data ChangeKind.pct Msg.outlierMarket mkt ([], [])).2 ++
        (outlierFold data ChangeKind.absdiff Msg.outlierFred frd
          ((outlierFold data ChangeKind.pct Msg.outlierMarket mkt
            ([], [])).1, [])).2 ++
        (stalenessStage now (pureColFold data req).latest).1 := rfl

theorem buildReport_outlier_counts (data : Frame)
    (req opt mkt frd : List String) (now : Int) :
    (buildReport data req opt mkt frd now).metrics.outlier_counts =
      (outlierFold data ChangeKind.absdiff Msg.outlierFred frd
        ((outlierFold data ChangeKind.pct Msg.outlierMarket mkt
          ([], [])).1, [])).1 := rfl

theorem buildReport_stale_series (data : Frame)
    (req opt mkt frd : List String) (now : Int) :
    (buildReport data req opt mkt frd now).metrics.stale_series =
      (stalenessStage now (pureColFold data req).latest).2 := rfl

theorem buildReport_gaps (data : Frame) (req opt mkt frd : List String)
    (now : Int) :
    Metrics.largest_missing_business_gap
        (buildReport data req opt mkt frd now).metrics =
      (pureColFold data req).gaps := rfl

theorem buildReport_latest (data : Frame) (req opt mkt frd : List String)
    (now : Int) :
    (buildReport data req opt mkt frd now).metrics.latest_date =
      (pureColFold data req).latest := rfl

theorem validateDataset_ok {data : Frame} {req opt mkt frd : List String}
    {now : Int} {rep : ValidationReport}
    (h : validateDataset data req opt mkt frd now = Except.ok rep) :
    rep = buildReport data req opt mkt frd now := by
  rw [validateDataset] at h
  split at h
  · exact absurd h (by simp)
  · injection h with h
    exact h.symm

theorem pureColFold_gaps_lookup (data : Frame) {c : String} {col : Col}
    (hc : data.getCol c = some col) :
    ∀ cols : List String, c ∈ cols →
      lookupKey c (pureColFold data cols).gaps =
        some (colGapValue data.indexDates col) := by
  intro cols
  induction cols with
  | nil => intro h; simp at h
  | cons c' rest ih =>
    intro hmem
    cases hg : data.getCol c' with
    | none =>
      rcases List.mem_cons.mp hmem with heq | h
      · rw [← heq] at hg; rw [hc] at hg; cases hg
      · have hred :
            (pureColFold data (c' :: rest)).gaps =
              (pureColFold data rest).gaps := by
          rw [pureColFold, hg]
        rw [hred]
        exact ih h
    | some col' =>
      have hred :
          (pureColFold data (c' :: rest)).gaps =
            insertFirstWins c' (colGapValue data.indexDates col')
              (pureColFold data rest).gaps := by
        rw [pureColFold, hg]
      rw [hred]
      by_cases hcc : c = c'
      · subst hcc
        rw [hc] at hg
        injection hg with hg
        subst hg
        exact lookupKey_insertFirstWins_self c _ _
      · rw [lookupKey_insertFirstWins_ne hcc]
        rcases List.mem_cons.mp hmem with heq | h
        · exact absurd heq hcc
        · exact ih h

theorem pureColFold_latest_lookup (data : Frame) {c : String} {col : Col}
    (hc : data.getCol c = some col) :
    ∀ cols : List String, c ∈ cols →
      lookupKey c (pureColFold data cols).latest =
        some (latestDateValue data.indexDates col) := by
  intro cols
  induction cols with
  | nil => intro h; simp at h
  | cons c' rest ih =>
    intro hmem
    cases hg : data.getCol c' with
    | none =>
      rcases List.mem_cons.mp hmem with heq | h
      · rw [← heq] at hg; rw [hc] at hg; cases hg
      · have hred :
            (pureColFold data (c' :: rest)).latest =
              (pureColFold data rest).latest := by
          rw [pureColFold, hg]
        rw [hred]
        exact ih h
    | some col' =>
      have hred :
          (pureColFold data (c' :: rest)).latest =
            insertFirstWins c' (latestDateValue data.indexDates col')
              (pureColFold data rest).latest := by
        rw [pureColFold, hg]
      rw [hred]
      by_cases hcc : c = c'
      · subst hcc
        rw [hc] at hg
        injection hg with hg
        subst hg
        exact lookupKey_insertFirstWins_self c _ _
      · rw [lookupKey_insertFirstWins_ne hcc]
        rcases List.mem_cons.mp hmem with heq | h
        · exact absurd heq hcc
        · exact ih h

theorem insertFirstWins_keys_nodup (c : String) (v : α)
    (m : List (String × α)) (h : (m.map Prod.fst).Nodup) :
    ((insertFirstWins c v m).map Prod.fst).Nodup := by
  rw [insertFirstWins, List.map_cons, List.nodup_cons]
  constructor
  · intro hmem
    rw [List.mem_map] at hmem
    obtain ⟨p, hp, hpc⟩ := hmem
    have h2 := (List.mem_filter.mp hp).2
    simp only [bne_iff_ne, ne_eq] at h2
    exact h2 hpc
  · exact List.Nodup.sublist (List.Sublist.map _ (List.filter_sublist m)) h

theorem pureColFold_latest_keys_nodup (data : Frame) :
    ∀ cols : List String,
      ((pureColFold data cols).latest.map Prod.fst).Nodup := by
  intro cols
  induction cols with
  | nil => simp [pureColFold]
  | cons c rest ih =>
    cases hg : data.getCol c with
    | none =>
      have hred :
          (pureColFold data (c :: rest)).latest =
            (pureColFold data rest).latest := by
        rw [pureColFold, hg]
      rw [hred]
      exact ih
    | some col =>
      have hred :
          (pureColFold data (c :: rest)).latest =
            insertFirstWins c (latestDateValue data.indexDates col)
              (pureColFold data rest).latest := by
        rw [pureColFold, hg]
      rw [hred]
      exact insertFirstWins_keys_nodup c _ _ ih

theorem outlierFold_lookup (data : Frame) (kind : ChangeKind)
    (mk : String → Nat → Msg) {c : String} {col : Col}
    (hc : data.getCol c = some col) :
    ∀ (cols : List String) (acc : List (String × Nat) × List Msg),
      lookupKey c (outlierFold data kind mk cols acc).1 =
        if c ∈ cols then some (outlierCountValue kind col)
        else lookupKey c acc.1 := by
  intro cols
  induction cols with
  | nil => intro acc; simp [outlierFold]
  | cons c' rest ih =>
    intro acc
    cases hg : data.getCol c' with
    | none =>
      have hred :
          outlierFold data kind mk (c' :: rest) acc =
            outlierFold data kind mk rest acc := by
        rw [outlierFold, hg]
      rw [hred, ih acc]
      by_cases hcc : c = c'
      · rw [← hcc] at hg; rw [hc] at hg; cases hg
      · by_cases hmem : c ∈ rest
        · rw [if_pos hmem, if_pos (List.mem_cons_of_mem c' hmem)]
        · rw [if_neg hmem, if_neg (by simp [hcc, hmem])]
    | some col' =>
      have hred :
          outlierFold data kind mk (c' :: rest) acc =
            outlierFold data kind mk rest
              (dictInsert acc.1 c' (outlierCountValue kind col'),
                acc.2 ++
                  (if outlierCountValue kind col' > 0 then
                    [mk c' (outlierCountValue kind col')]
                  else [])) := by
        rw [outlierFold, hg]
      have hfst :
          (dictInsert acc.1 c' (outlierCountValue kind col'),
            acc.2 ++
              (if outlierCountValue kind col' > 0 then
                [mk c' (outlierCountValue kind col')]
              else [])).1 =
            dictInsert acc.1 c' (outlierCountValue kind col') := rfl
      rw [hred, ih _, hfst, lookupKey_dictInsert]
      by_cases hcc : c = c'
      · subst hcc
        rw [hc] at hg
        injection hg with hg
        subst hg
        by_cases hmem : c ∈ rest
        · rw [if_pos hmem, if_pos (List.mem_cons_self c rest)]
        · rw [if_neg hmem, if_pos rfl, if_pos (List.mem_cons_self c rest)]
      · by_cases hmem : c ∈ rest
        · rw [if_pos hmem, if_pos (List.mem_cons_of_mem c' hmem)]
        · rw [if_neg hmem, if_neg hcc,
            if_neg (show ¬ c ∈ c' :: rest by simp [hcc, hmem])]

theorem stalenessStage_eq (now : Int) :
    ∀ latest : List (String × Option Int),
      stalenessStage now latest =
        (latest.filterMap (staleEntryMsg now),
          latest.filterMap (staleEntryName now)) := by
  intro latest
  induction latest with
  | nil => rfl
  | cons p rest ih =>
    obtain ⟨c, od⟩ := p
    cases od with
    | none =>
      have hred :
          stalenessStage now ((c, none) :: rest) =
            stalenessStage now rest := by
        simp only [stalenessStage]
      rw [hred, ih]
      simp [List.filterMap_cons, staleEntryMsg, staleEntryName]
    | some d =>
      by_cases h : now - d > staleThreshold c
      · have hred :
            stalenessStage now ((c, some d) :: rest) =
              (Msg.stale c d (now - d) (staleThreshold c) ::
                  (stalenessStage now rest).1,
                c :: (stalenessStage now rest).2) := by
          simp only [stalenessStage]
          rw [if_pos h]
        rw [hred, ih]
        simp [List.filterMap_cons, staleEntryMsg, staleEntryName, h]
      · have hred :
            stalenessStage now ((c, some d) :: rest) =
              stalenessStage now rest := by
          simp only [stalenessStage]
          rw [if_neg h]
        rw [hred, ih]
        simp [List.filterMap_cons, staleEntryMsg, staleEntryName, h]

theorem staleEntryName_eq_some {now : Int} {p : String × Option Int}
    {x : String} (h : staleEntryName now p = some x) :
    x = p.1 ∧ ∃ d, p.2 = some d ∧ now - d > staleThreshold p.1 := by
  obtain ⟨c, od⟩ := p
  cases od with
  | none => simp [staleEntryName] at h
  | some d =>
    simp only [staleEntryName] at h
    by_cases hst : now - d > staleThreshold c
    · rw [if_pos hst] at h
      injection h with h
      exact ⟨h.symm, d, rfl, hst⟩
    · rw [if_neg hst] at h
      cases h

theorem assoc_unique {β : Type} (l : List (String × β))
    (hnd : (l.map Prod.fst).Nodup) {c : String} {v w : β}
    (h1 : (c, v) ∈ l) (h2 : (c, w) ∈ l) : v = w := by
  induction l with
  | nil => simp at h1
  | cons p rest ih =>
    rw [List.map_cons, List.nodup_cons] at hnd
    obtain ⟨hnotin, hnd'⟩ := hnd
    rcases List.mem_cons.mp h1 with e1 | m1 <;>
      rcases List.mem_cons.mp h2 with e2 | m2
    · rw [← e1] at e2; injection e2 with _ e2; exact e2.symm
    · exfalso
      apply hnotin
      rw [← e1]
      exact List.mem_map.mpr ⟨(c, w), m2, rfl⟩
    · exfalso
      apply hnotin
      rw [← e2]
      exact List.mem_map.mpr ⟨(c, v), m1, rfl⟩
    · exact ih hnd' m1 m2

theorem getCol_mem_colNames {f : Frame} {c : String} {col : Col}
    (h : f.getCol c = some col) : c ∈ f.colNames := by
  rw [Frame.getCol] at h
  cases hfind : f.cols.find? (fun p => p.1 == c) with
  | none => rw [hfind] at h; cases h
  | some p =>
    have hp := List.find?_some hfind
    have hmem := List.mem_of_find?_eq_some hfind
    rw [Frame.colNames]
    exact List.mem_map.mpr ⟨p, hmem, by simpa using hp⟩

theorem staleEntryMsg_eq_some {now : Int} {p : String × Option Int}
    {m : Msg} (h : staleEntryMsg now p = some m) :
    ∃ d, p.2 = some d ∧ now - d > staleThreshold p.1 ∧
      m = Msg.stale p.1 d (now - d) (staleThreshold p.1) := by
  obtain ⟨c, od⟩ := p
  cases od with
  | none => simp [staleEntryMsg] at h
  | some d =>
    simp only [staleEntryMsg] at h
    by_cases hst : now - d > staleThreshold c
    · rw [if_pos hst] at h
      injection h with h
      exact ⟨d, rfl, hst, h.symm⟩
    · rw [if_neg hst] at h
      cases h

theorem staleName_count (now : Int) :
    ∀ (latest : List (String × Option Int)) (c : String),
      (latest.map Prod.fst).Nodup → ∀ d : Int, (c, some d) ∈ latest →
        (latest.filterMap (staleEntryName now)).count c =
          if now - d > staleThreshold c then 1 else 0 := by
  intro latest
  induction latest with
  | nil => intro c _ d h; simp at h
  | cons p rest ih =>
    intro c hnd d hmem
    rw [List.map_cons, List.nodup_cons] at hnd
    obtain ⟨hnotin, hnd'⟩ := hnd
    rcases List.mem_cons.mp hmem with heq | hmem'
    · cases heq.symm
      have hrest : c ∉ rest.filterMap (staleEntryName now) := by
        intro hx
        rw [List.mem_filterMap] at hx
        obtain ⟨q, hq, he⟩ := hx
        obtain ⟨he1, _⟩ := staleEntryName_eq_some he
        exact hnotin (he1 ▸ List.mem_map.mpr ⟨q, hq, rfl⟩)
      by_cases hst : now - d > staleThreshold c
      · rw [if_pos hst,
          List.filterMap_cons_some
            (by simp [staleEntryName, hst] :
              staleEntryName now (c, some d) = some c),
          List.count_cons_self, List.count_eq_zero.mpr hrest]
      · rw [if_neg hst,
          List.filterMap_cons_none
            (by simp [staleEntryName, hst] :
              staleEntryName now (c, some d) = none)]
        exact List.count_eq_zero.mpr hrest
    · have hpc : p.1 ≠ c := by
        intro hx
        exact hnotin (hx ▸ List.mem_map.mpr ⟨(c, some d), hmem', rfl⟩)
      cases hv : staleEntryName now p with
      | none =>
        rw [List.filterMap_cons_none hv]
        exact ih c hnd' d hmem'
      | some x =>
        have hx := (staleEntryName_eq_some hv).1
        have hcx : c ≠ x := by rw [hx]; exact Ne.symm hpc
        rw [List.filterMap_cons_some hv, List.count_cons_of_ne hcx]
        exact ih c hnd' d hmem'

theorem staleMsg_countP (now : Int) :
    ∀ (latest : List (String × Option Int)) (c : String),
      (latest.map Prod.fst).Nodup → ∀ d : Int, (c, some d) ∈ latest →
        (latest.filterMap (staleEntryMsg now)).countP (Msg.isStaleFor c) =
          if now - d > staleThreshold c then 1 else 0 := by
  intro latest
  induction latest with
  | nil => intro c _ d h; simp at h
  | cons p rest ih =>
    intro c hnd d hmem
    rw [List.map_cons, List.nodup_cons] at hnd
    obtain ⟨hnotin, hnd'⟩ := hnd
    have hrest :
        (rest.filterMap (staleEntryMsg now)).countP (Msg.isStaleFor c) =
          0 ∨ c ∈ rest.map Prod.fst := by
      by_cases hin : c ∈ rest.map Prod.fst
      · right; exact hin
      · left
        rw [List.countP_eq_zero]
        intro m hm
        rw [List.mem_filterMap] at hm
        obtain ⟨q, hq, he⟩ := hm
        obtain ⟨d', _, _, hmeq⟩ := staleEntryMsg_eq_some he
        subst hmeq
        have hq1 : q.1 ≠ c := by
          intro hx
          exact hin (hx ▸ List.mem_map.mpr ⟨q, hq, rfl⟩)
        simp [Msg.isStaleFor, hq1]
    rcases List.mem_cons.mp hmem with heq | hmem'
    · cases heq.symm
      have hnotin' : c ∉ rest.map Prod.fst := hnotin
      have hzero :
          (rest.filterMap (staleEntryMsg now)).countP
            (Msg.isStaleFor c) = 0 := by
        rcases hrest with h0 | h0
        · exact h0
        · exact absurd h0 hnotin'
      by_cases hst : now - d > staleThreshold c
      · rw [if_pos hst,
          List.filterMap_cons_some
            (by simp [staleEntryMsg, hst] :
              staleEntryMsg now (c, some d) =
                some (Msg.stale c d (now - d) (staleThreshold c))),
          List.countP_cons, hzero]
        simp [Msg.isStaleFor]
      · rw [if_neg hst,
          List.filterMap_cons_none
            (by simp [staleEntryMsg, hst] :
              staleEntryMsg now (c, some d) = none)]
        exact hzero
    · have hpc : p.1 ≠ c := by
        intro hx
        exact hnotin (hx ▸ List.mem_map.mpr ⟨(c, some d), hmem', rfl⟩)
      cases hv : staleEntryMsg now p with
      | none =>
        rw [List.filterMap_cons_none hv]
        exact ih c hnd' d hmem'
      | some m =>
        obtain ⟨d', _, _, hmeq⟩ := staleEntryMsg_eq_some hv
        rw [List.filterMap_cons_some hv, List.countP_cons, ih c hnd' d hmem']
        subst hmeq
        simp [Msg.isStaleFor, hpc]

theorem staleName_mem_iff (now : Int) (latest : List (String × Option Int))
    (x : String) :
    x ∈ latest.filterMap (staleEntryName now) ↔
      ∃ d, (x, some d) ∈ latest ∧ now - d > staleThreshold x := by
  rw [List.mem_filterMap]
  constructor
  · rintro ⟨p, hp, he⟩
    obtain ⟨h1, d, h2, h3⟩ := staleEntryName_eq_some he
    subst h1
    refine ⟨d, ?_, h3⟩
    have : p = (p.1, some d) := by
      obtain ⟨a, b⟩ := p
      simp at h2 ⊢
      exact h2
    rw [← this]
    exact hp
  · rintro ⟨d, hmem, hst⟩
    exact ⟨(x, some d), hmem, by simp [staleEntryName, hst]⟩

theorem countTrue_replicate_false (n : Nat) :
    countTrue (List.replicate n false) = 0 := by
  rw [countTrue, List.countP_eq_zero]
  intro a ha
  rw [List.eq_of_mem_replicate ha]
  simp

theorem zscoreFlags_degenerate (v : List (Option Rat)) (kind : ChangeKind)
    (h : specStdZeroOrUndefined v kind) :
    countTrue (zscoreFlags v kind) = 0 := by
  rw [zscoreFlags]
  by_cases he : v.isEmpty
  · rw [if_pos he]; rfl
  · rw [if_neg he]
    by_cases h1 : ((changeSeries kind v).filterMap id).length ≤ 1
    · rw [if_pos h1]; exact countTrue_replicate_false _
    · rw [if_neg h1]
      have hvar :
          sampleVariance ((changeSeries kind v).filterMap id) = 0 := by
        rcases h with h | h
        · exact absurd h h1
        · exact h
      rw [if_pos (by rw [hvar]; norm_num)]
      exact countTrue_replicate_false _

theorem changeOf_none_prev (kind : ChangeKind) (q : Rat) :
    changeOf kind (some q) none = none := by
  cases kind <;> rfl

theorem changeSeries_replicate (kind : ChangeKind) (m : Nat) (q : Rat) :
    changeSeries kind (List.replicate (m + 1) (some q)) =
      changeOf kind (some q) none ::
        List.replicate m (changeOf kind (some q) (some q)) := by
  rw [changeSeries]
  have h1 : (List.replicate (m + 1) (some q)).dropLast =
      List.replicate m (some q) := by
    simp [List.dropLast_replicate]
  rw [h1,
    show List.replicate (m + 1) (some q) =
      some q :: List.replicate m (some q) from List.replicate_succ _ _,
    List.zip_cons_cons, List.zip_replicate, min_self, List.map_cons,
    List.map_replicate]

theorem changeOf_const (kind : ChangeKind) (q : Rat) :
    changeOf kind (some q) (some q) = none ∨
      changeOf kind (some q) (some q) = some 0 := by
  cases kind with
  | pct =>
    by_cases hq : q = 0
    · left; simp [changeOf, hq]
    · right; simp [changeOf, hq, div_self hq]
  | absdiff => right; simp [changeOf]

theorem filterMap_id_replicate_some (m : Nat) (x : Rat) :
    (List.replicate m (some x)).filterMap id = List.replicate m x := by
  induction m with
  | zero => rfl
  | succ m ih =>
    rw [List.replicate_succ, List.replicate_succ,
      @List.filterMap_cons_some (Option Rat) Rat id (some x)
        (List.replicate m (some x)) x rfl, ih]

theorem filterMap_id_replicate_none (m : Nat) :
    (List.replicate m (none : Option Rat)).filterMap id = [] := by
  induction m with
  | zero => rfl
  | succ m ih =>
    rw [List.replicate_succ,
      @List.filterMap_cons_none (Option Rat) Rat id none
        (List.replicate m none) rfl, ih]

theorem sampleVariance_replicate_zero (m : Nat) :
    sampleVariance (List.replicate m (0 : Rat)) = 0 := by
  have hmean : sampleMean (List.replicate m (0 : Rat)) = 0 := by
    rw [sampleMean]
    simp [List.sum_replicate]
  rw [sampleVariance]
  simp [hmean, List.sum_replicate]

theorem zscoreFlags_constant (kind : ChangeKind) (n : Nat) (q : Rat) :
    countTrue (zscoreFlags (List.replicate n (some q)) kind) = 0 := by
  cases n with
  | zero => rfl
  | succ m =>
    apply zscoreFlags_degenerate
    rw [specStdZeroOrUndefined, changeSeries_replicate,
      @List.filterMap_cons_none (Option Rat) Rat id
        (changeOf kind (some q) none)
        (List.replicate m (changeOf kind (some q) (some q)))
        (by rw [changeOf_none_prev kind q]; rfl)]
    rcases changeOf_const kind q with hc | hc
    · left
      rw [hc, filterMap_id_replicate_none]
      simp
    · rcases Nat.lt_or_ge m 2 with hm | hm
      · left
        rw [hc, filterMap_id_replicate_some, List.length_replicate]
        omega
      · right
        rw [hc, filterMap_id_replicate_some]
        exact sampleVariance_replicate_zero m

/-- Membership in the modelled business-day calendar. -/
theorem mem_bdayRange (lo hi d : Int) :
    d ∈ bdayRange lo hi ↔ lo ≤ d ∧ d ≤ hi ∧ isBusinessDay d = true := by
  rw [bdayRange, List.mem_filter]
  constructor
  · rintro ⟨hmem, hb⟩
    rw [dayRange, List.mem_map] at hmem
    obtain ⟨i, hi', hd⟩ := hmem
    rw [List.mem_range] at hi'
    exact ⟨by omega, by omega, hb⟩
  · rintro ⟨h1, h2, hb⟩
    refine ⟨?_, hb⟩
    rw [dayRange, List.mem_map]
    exact ⟨(d - lo).toNat, List.mem_range.mpr (by omega), by omega⟩

/-- C1 (code bug): contrary to the spec's no-crash requirement,
`validate_dataset` raises instead of returning a report whenever the
per-required-column loop reaches business-day reindexing on a malformed
index: with required column "fred_DGS10" present and a non-date index,
`pd.date_range(index.min(), index.max(), freq="B")` raises, the exception
propagates, and no `ValidationReport` (hence no per-column error entry) is
produced at all. -/
theorem validate_raises_on_malformed_index :
    validateDataset badIndexFrame ["fred_DGS10"] [] [] [] 0 =
      Except.error
        "ValueError: business-day calendar reindexing failed on malformed index" :=
  rfl

/-- C7: `append_catalog_entry` leaves the catalog file holding the prior
entry sequence with the new entry appended at the end: an absent file is
read as the empty sequence, a single-object file is coerced to a one-element
sequence, the prior sequence is a prefix of the new one (no entry edited or
removed), and two appends (two runs with different run ids) leave the first
new entry intact before the second. -/
theorem catalog_append_preserves_entries {α : Type} (f : CatalogFile α)
    (e e1 e2 : α) :
    catalogEntries (appendCatalogEntry f e) = catalogEntries f ++ [e]
    ∧ catalogEntries f <+: catalogEntries (appendCatalogEntry f e)
    ∧ catalogEntries (appendCatalogEntry (appendCatalogEntry f e1) e2) =
        catalogEntries f ++ [e1, e2]
    ∧ catalogEntries (CatalogFile.absent : CatalogFile α) = []
    ∧ ∀ x : α, catalogEntries (CatalogFile.objectTop x) = [x] := by
  refine ⟨rfl, List.prefix_append _ _, ?_, rfl, fun x => rfl⟩
  simp [appendCatalogEntry, catalogEntries]

/-- C8: on an input table with no rows, the year-partitioned writer returns
the empty result list and writes nothing (each returned result corresponds
to exactly one physical file written), while the standardized writer still
produces its single file at the standardized path, with row count 0. -/
theorem empty_frame_write_behavior (df : Frame)
    (baseDir source runId : String) (h : frameRows df = 0) :
    writePartitionedByYear df baseDir source runId = []
    ∧ writeStandardized df baseDir runId =
        { path := standardizedPath baseDir runId, rows := 0 } := by
  constructor
  · rw [writePartitionedByYear, if_pos]
    rw [frameEmpty]
    simp [h]
  · rw [writeStandardized, writeParquet, h]

/-- C8 witness at a concrete empty frame. -/
theorem empty_frame_write_behavior_witness :
    frameRows { indexName := some "date"
                index := IndexData.datetime []
                cols := [("x", wColNum [])] } = 0
    ∧ (writePartitionedByYear
          { indexName := some "date"
            index := IndexData.datetime []
            cols := [("x", wColNum [])] } "data" "fred" "r1" = []
        ∧ writeStandardized
            { indexName := some "date"
              index := IndexData.datetime []
              cols := [("x", wColNum [])] } "data" "r1" =
          { path := standardizedPath "data" "r1", rows := 0 }) :=
  ⟨rfl,
    empty_frame_write_behavior
      { indexName := some "date"
        index := IndexData.datetime []
        cols := [("x", wColNum [])] } "data" "fred" "r1" rfl⟩

/-- C9: determinism and isolation of the only non-functional input — two
calls with identical table, column sets and current date return identical
reports, and the current date influences nothing outside the staleness
check: raising behavior, errors and every non-staleness metric agree across
any two current dates. The embedding is a pure function of its arguments,
reflecting that the source reads no state besides the wall clock, writes no
files and never mutates the input table. -/
theorem validate_deterministic (data : Frame) (req opt mkt frd : List String)
    (now now1 now2 : Int) :
    validateDataset data req opt mkt frd now =
      validateDataset data req opt mkt frd now
    ∧ (validateDataset data req opt mkt frd now1).map
          (fun r => r.errors) =
        (validateDataset data req opt mkt frd now2).map (fun r => r.errors)
    ∧ (validateDataset data req opt mkt frd now1).map
          (fun r => r.metrics.row_count) =
        (validateDataset data req opt mkt frd now2).map
          (fun r => r.metrics.row_count)
    ∧ (validateDataset data req opt mkt frd now1).map
          (fun r => r.metrics.column_count) =
        (validateDataset data req opt mkt frd now2).map
          (fun r => r.metrics.column_count)
    ∧ (validateDataset data req opt mkt frd now1).map
          (fun r => r.metrics.missing_pct) =
        (validateDataset data req opt mkt frd now2).map
          (fun r => r.metrics.missing_pct)
    ∧ (validateDataset data req opt mkt frd now1).map
          (fun r => Metrics.largest_missing_business_gap r.metrics) =
        (validateDataset data req opt mkt frd now2).map
          (fun r => Metrics.largest_missing_business_gap r.metrics)
    ∧ (validateDataset data req opt mkt frd now1).map
          (fun r => r.metrics.latest_date) =
        (validateDataset data req opt mkt frd now2).map
          (fun r => r.metrics.latest_date)
    ∧ (validateDataset data req opt mkt frd now1).map
          (fun r => r.metrics.outlier_counts) =
        (validateDataset data req opt mkt frd now2).map
          (fun r => r.metrics.outlier_counts)
    ∧ (validateDataset data req opt mkt frd now1).map
          (fun r => r.metrics.errors_count) =
        (validateDataset data req opt mkt frd now2).map
          (fun r => r.metrics.errors_count) := by
  refine ⟨rfl, ?_, ?_, ?_, ?_, ?_, ?_, ?_, ?_⟩ <;>
    by_cases hc : crashesOnReindex data req = true <;>
    simp [validateDataset, hc] <;> rfl

/-- C10: every successfully returned report's metrics mapping carries the
keys `row_count`, `column_count`, `missing_pct`,
`largest_missing_business_gap`, `latest_date`, `outlier_counts` and
`stale_series` (structurally, as the fields of `Metrics`), and its
`warnings_count` and `errors_count` equal the lengths of the report's
warnings and errors lists at return time. -/
theorem metrics_counts_match (data : Frame) (req opt mkt frd : List String)
    (now : Int) (rep : ValidationReport)
    (h : validateDataset data req opt mkt frd now = Except.ok rep) :
    rep.metrics.warnings_count = rep.warnings.length
    ∧ rep.metrics.errors_count = rep.errors.length := by
  rw [validateDataset_ok h]
  exact ⟨rfl, rfl⟩

/-- C10 witness at a concrete frame. -/
theorem metrics_counts_match_witness :
    validateDataset presentOnlyFrame ["x"] [] [] [] 19724 =
      Except.ok (buildReport presentOnlyFrame ["x"] [] [] [] 19724)
    ∧ (Metrics.warnings_count
          (buildReport presentOnlyFrame ["x"] [] [] [] 19724).metrics =
        (buildReport presentOnlyFrame ["x"] [] [] [] 19724).warnings.length
      ∧ Metrics.errors_count
            (buildReport presentOnlyFrame ["x"] [] [] [] 19724).metrics =
          (buildReport presentOnlyFrame ["x"] [] [] [] 19724).errors.length) :=
  ⟨rfl, metrics_counts_match presentOnlyFrame ["x"] [] [] [] 19724 _ rfl⟩

/-- C2: whenever required ids are missing from the table (and the engine
returns a report), the errors list holds exactly one missing-columns entry;
that entry carries precisely the deduplicated list of required ids absent
from the table, sorted lexicographically. -/
theorem missing_required_single_sorted_error (data : Frame)
    (req opt mkt frd : List String) (now : Int) (rep : ValidationReport)
    (_hwf : data.wf = true)
    (h : validateDataset data req opt mkt frd now = Except.ok rep)
    (hmiss : sortedMissing req data ≠ []) :
    rep.errors.countP Msg.isMissingCols = 1
    ∧ Msg.missingColumns (sortedMissing req data) ∈ rep.errors
    ∧ List.Sorted (fun a b : String => strLe a b = true)
        (sortedMissing req data)
    ∧ ∀ c : String,
        c ∈ sortedMissing req data ↔ c ∈ req ∧ c ∉ data.colNames := by
  have hrep := validateDataset_ok h
  subst hrep
  have hne : ¬ (sortedMissing req data).isEmpty = true := by
    simpa [List.isEmpty_iff] using hmiss
  refine ⟨?_, ?_, ?_, ?_⟩
  · rw [buildReport_errors, List.countP_append, List.countP_append]
    have h1 : (schemaErrors data).countP Msg.isMissingCols = 0 := by
      rw [List.countP_eq_zero]
      intro m hm
      rcases schemaErrors_mem data m hm with rfl | rfl | rfl | rfl <;>
        simp [Msg.isMissingCols]
    have h2 :
        (pureColFold data req).errors.countP Msg.isMissingCols = 0 := by
      rw [List.countP_eq_zero]
      intro m hm
      rcases pureColFold_errors_mem data req m hm with ⟨c, rfl⟩ | ⟨c, rfl⟩ <;>
        simp [Msg.isMissingCols]
    rw [h1, h2, if_neg hne]
    simp [Msg.isMissingCols, List.countP_cons]
  · rw [buildReport_errors]
    refine List.mem_append.mpr (Or.inl (List.mem_append.mpr (Or.inr ?_)))
    rw [if_neg hne]
    exact List.mem_singleton.mpr rfl
  · exact List.sorted_insertionSort _ _
  · intro c
    rw [sortedMissing]
    constructor
    · intro hc
      have hmem := (List.perm_insertionSort _ _).mem_iff.mp hc
      rw [List.mem_dedup, List.mem_filter] at hmem
      exact ⟨hmem.1, by simpa using hmem.2⟩
    · rintro ⟨h1, h2⟩
      apply (List.perm_insertionSort _ _).mem_iff.mpr
      rw [List.mem_dedup, List.mem_filter]
      exact ⟨h1, by simpa using h2⟩

/-- C2 witness: required ids "b" and "a" are absent from a table holding
only "x"; the single error names ["a", "b"]. -/
theorem missing_required_single_sorted_error_witness :
    presentOnlyFrame.wf = true
    ∧ validateDataset presentOnlyFrame ["b", "a"] [] [] [] 19724 =
        Except.ok (buildReport presentOnlyFrame ["b", "a"] [] [] [] 19724)
    ∧ sortedMissing ["b", "a"] presentOnlyFrame ≠ []
    ∧ (buildReport presentOnlyFrame ["b", "a"] [] [] []
          19724).errors.countP Msg.isMissingCols = 1
    ∧ Msg.missingColumns (sortedMissing ["b", "a"] presentOnlyFrame) ∈
        (buildReport presentOnlyFrame ["b", "a"] [] [] [] 19724).errors := by
  have hmain :=
    missing_required_single_sorted_error presentOnlyFrame ["b", "a"] [] [] []
      19724 _ (by decide) rfl (by decide)
  exact ⟨by decide, rfl, by decide, hmain.1, hmain.2.1⟩

/-- C4: a monitored column (one of the five fixed macro ids, or any table
column ending in the adjusted-close or volume suffix) holding at least one
negative value yields a warning carrying exactly the count of negative
rows, and the sign-validity rules never contribute to the errors list. -/
theorem impossible_negative_values_warn_not_error (data : Frame)
    (req opt mkt frd : List String) (now : Int) (rep : ValidationReport)
    (c : String) (col : Col) (_hwf : data.wf = true)
    (h : validateDataset data req opt mkt frd now = Except.ok rep)
    (hmon : c ∈ fixedImpossibleIds ∨ strEndsWith c "__adj_close" = true ∨
      strEndsWith c "__volume" = true)
    (hcol : data.getCol c = some col) (hneg : 0 < negCount col.cells) :
    Msg.impossibleValues c (negCount col.cells) ∈ rep.warnings
    ∧ ∀ m ∈ rep.errors, Msg.isImpossible m = false := by
  have hrep := validateDataset_ok h
  subst hrep
  constructor
  · have hmem :
        Msg.impossibleValues c (negCount col.cells) ∈
          impossibleStage data := by
      rw [impossibleStage, List.mem_filterMap]
      refine ⟨c, ?_, ?_⟩
      · rw [impossibleRuleIds]
        have hc : c ∈ fixedImpossibleIds ∨ c ∈ data.colNames := by
          rcases hmon with h1 | _ | _
          · left; exact h1
          · right; exact getCol_mem_colNames hcol
          · right; exact getCol_mem_colNames hcol
        rcases hmon with h1 | h1 | h1
        · exact List.mem_append.mpr
            (Or.inl (List.mem_append.mpr (Or.inl h1)))
        · rcases hc with h2 | h2
          · exact List.mem_append.mpr
              (Or.inl (List.mem_append.mpr (Or.inl h2)))
          · exact List.mem_append.mpr
              (Or.inl (List.mem_append.mpr
                (Or.inr (List.mem_filter.mpr ⟨h2, h1⟩))))
        · rcases hc with h2 | h2
          · exact List.mem_append.mpr
              (Or.inl (List.mem_append.mpr (Or.inl h2)))
          · exact List.mem_append.mpr
              (Or.inr (List.mem_filter.mpr ⟨h2, h1⟩))
      · rw [hcol]
        simp only [hneg, if_pos]
    rw [buildReport_warnings]
    simp only [List.mem_append]
    tauto
  · intro m hm
    rw [buildReport_errors] at hm
    simp only [List.mem_append] at hm
    rcases hm with (hm | hm) | hm
    · rcases schemaErrors_mem data m hm with rfl | rfl | rfl | rfl <;> rfl
    · split at hm
      · simp at hm
      · rw [List.mem_singleton] at hm
        subst hm
        rfl
    · rcases pureColFold_errors_mem data req m hm with ⟨c', rfl⟩ | ⟨c', rfl⟩ <;>
        rfl

/-- C4 witness: the adjusted-close column of `negFrame` holds one negative
row; the warning carries count 1 and no impossible-value error exists. -/
theorem impossible_negative_values_warn_not_error_witness :
    negFrame.wf = true
    ∧ validateDataset negFrame ["yfin_SPY__adj_close"] [] [] [] 19724 =
        Except.ok
          (buildReport negFrame ["yfin_SPY__adj_close"] [] [] [] 19724)
    ∧ negFrame.getCol "yfin_SPY__adj_close" = some (wColNum [-1, 2])
    ∧ 0 < negCount (wColNum [-1, 2]).cells
    ∧ Msg.impossibleValues "yfin_SPY__adj_close"
          (negCount (wColNum [-1, 2]).cells) ∈
        (buildReport negFrame ["yfin_SPY__adj_close"] [] [] []
          19724).warnings := by
  have hmain :=
    impossible_negative_values_warn_not_error negFrame
      ["yfin_SPY__adj_close"] [] [] [] 19724 _ "yfin_SPY__adj_close"
      (wColNum [-1, 2]) (by decide) rfl
      (Or.inr (Or.inl (by decide))) (by decide) (by decide)
  exact ⟨by decide, rfl, by decide, by decide, hmain.1⟩

/-- C5: the statistical outlier check flags no rows when the change series'
standard deviation is zero or undefined — the spec-side condition
`specStdZeroOrUndefined` (zero variance, or fewer than two non-null changes
making the ddof-1 std NaN) always lands in the code's
`np.isclose(std, 0, equal_nan=True)` guard branch, which returns all-false
flags. In particular a constant-valued column (whatever change kind) flags
zero rows, and for such a column monitored as a market or macro series the
engine records an outlier count of 0 in the report's metrics. -/
theorem outlier_zero_variance_no_flags (data : Frame)
    (req opt mkt frd : List String) (now : Int) (rep : ValidationReport)
    (c : String) (col : Col) (n : Nat) (q : Rat) (_hwf : data.wf = true)
    (hok : validateDataset data req opt mkt frd now = Except.ok rep)
    (hmem : c ∈ mkt ∨ c ∈ frd) (hcol : data.getCol c = some col)
    (hconst : col.cells.map cellToNumeric = List.replicate n (some q)) :
    (∀ (v : List (Option Rat)) (kind : ChangeKind),
        specStdZeroOrUndefined v kind → countTrue (zscoreFlags v kind) = 0)
    ∧ countTrue
        (zscoreFlags (col.cells.map cellToNumeric) ChangeKind.pct) = 0
    ∧ countTrue
        (zscoreFlags (col.cells.map cellToNumeric) ChangeKind.absdiff) = 0
    ∧ lookupKey c rep.metrics.outlier_counts = some 0 := by
  have hrep := validateDataset_ok hok
  subst hrep
  have hflag :
      ∀ kind, countTrue (zscoreFlags (col.cells.map cellToNumeric) kind) =
        0 := by
    intro kind
    rw [hconst]
    exact zscoreFlags_constant kind n q
  refine ⟨fun v kind h => zscoreFlags_degenerate v kind h, hflag _,
    hflag _, ?_⟩
  rw [buildReport_outlier_counts]
  by_cases hf : c ∈ frd
  · rw [outlierFold_lookup data ChangeKind.absdiff Msg.outlierFred hcol frd
        _, if_pos hf, outlierCountValue, hflag]
  · have hm : c ∈ mkt := by tauto
    rw [outlierFold_lookup data ChangeKind.absdiff Msg.outlierFred hcol frd
        _, if_neg hf]
    have hfst :
        ((outlierFold data ChangeKind.pct Msg.outlierMarket mkt
            ([], [])).1, ([] : List Msg)).1 =
          (outlierFold data ChangeKind.pct Msg.outlierMarket mkt
            ([], [])).1 := rfl
    rw [hfst,
      outlierFold_lookup data ChangeKind.pct Msg.outlierMarket hcol mkt _,
      if_pos hm, outlierCountValue, hflag]

/-- C5 witness: the constant market column of `constFrame` records an
outlier count of 0. -/
theorem outlier_zero_variance_no_flags_witness :
    constFrame.wf = true
    ∧ validateDataset constFrame ["yfin_SPY__adj_close"] []
          ["yfin_SPY__adj_close"] [] 19726 =
        Except.ok (buildReport constFrame ["yfin_SPY__adj_close"] []
          ["yfin_SPY__adj_close"] [] 19726)
    ∧ (wColNum [5, 5, 5]).cells.map cellToNumeric =
        List.replicate 3 (some (5 : Rat))
    ∧ countTrue
        (zscoreFlags ((wColNum [5, 5, 5]).cells.map cellToNumeric)
          ChangeKind.pct) = 0
    ∧ lookupKey "yfin_SPY__adj_close"
        (buildReport constFrame ["yfin_SPY__adj_close"] []
          ["yfin_SPY__adj_close"] [] 19726).metrics.outlier_counts =
      some 0 := by
  have hmain :=
    outlier_zero_variance_no_flags constFrame ["yfin_SPY__adj_close"] []
      ["yfin_SPY__adj_close"] [] 19726 _ "yfin_SPY__adj_close"
      (wColNum [5, 5, 5]) 3 5 (by decide) rfl (Or.inl (by decide))
      (by decide) (by decide)
  exact ⟨by decide, rfl, by decide, hmain.2.1, hmain.2.2.2⟩

/-- C3 counterexample: selecting the 45-day staleness threshold for columns
in the declared macro set is refuted by the code. Column "m" is declared in
the macro (absolute-change) set, its only observation is 30 days old, and
30 ≤ 45, so under the claim it must not be flagged stale; the engine
nevertheless flags it, because the code selects the threshold by the
"fred_" name prefix: "m" gets the 7-day threshold and 30 > 7. -/
theorem staleness_declared_macro_counterexample :
    (validateDataset macroSetFrame ["m"] [] [] ["m"] (19723 + 30)).map
        (fun r => r.metrics.stale_series) = Except.ok ["m"]
    ∧ (19723 + 30 : Int) - 19723 = 30 ∧ (30 : Int) ≤ 45 := by
  refine ⟨rfl, by norm_num, by norm_num⟩

/-- C3 (amended): the staleness check selects the threshold by the "fred_"
name prefix — 45 days for column ids starting with "fred_", 7 days for all
others, irrespective of the declared macro set. Over a `latest_date` map
with unique keys (as the engine builds): a column flagged stale is exactly
one whose entry has a latest date with age strictly above its threshold; an
entry whose age exceeds its threshold contributes exactly one staleness
warning and exactly one `stale_series` element; an entry at or under its
threshold is not flagged; an entry with no latest date is skipped, never
flagged; and `stale_series` of any returned report is exactly this
staleness computation over the report's `latest_date` metric. -/
theorem staleness_threshold_by_fred_name (now : Int)
    (latest : List (String × Option Int)) (c : String) (d : Int)
    (hnd : (latest.map Prod.fst).Nodup) (hmem : (c, some d) ∈ latest) :
    staleThreshold c = (if strStartsWith c "fred_" then 45 else 7)
    ∧ (∀ x, x ∈ (stalenessStage now latest).2 ↔
        ∃ d', (x, some d') ∈ latest ∧ now - d' > staleThreshold x)
    ∧ (now - d > staleThreshold c →
        (stalenessStage now latest).2.count c = 1
        ∧ (stalenessStage now latest).1.countP (Msg.isStaleFor c) = 1)
    ∧ (now - d ≤ staleThreshold c → c ∉ (stalenessStage now latest).2)
    ∧ (∀ c', (c', none) ∈ latest → c' ∉ (stalenessStage now latest).2)
    ∧ ∀ (data : Frame) (req opt mkt frd : List String)
        (rep : ValidationReport),
        validateDataset data req opt mkt frd now = Except.ok rep →
        rep.metrics.stale_series =
          rep.metrics.latest_date.filterMap (staleEntryName now) := by
  have h2 : (stalenessStage now latest).2 =
      latest.filterMap (staleEntryName now) := by
    rw [stalenessStage_eq]
  have h1 : (stalenessStage now latest).1 =
      latest.filterMap (staleEntryMsg now) := by
    rw [stalenessStage_eq]
  refine ⟨rfl, ?_, ?_, ?_, ?_, ?_⟩
  · intro x
    rw [h2]
    exact staleName_mem_iff now latest x
  · intro hst
    constructor
    · rw [h2, staleName_count now latest c hnd d hmem, if_pos hst]
    · rw [h1, staleMsg_countP now latest c hnd d hmem, if_pos hst]
  · intro hst
    rw [h2]
    apply List.count_eq_zero.mp
    rw [staleName_count now latest c hnd d hmem, if_neg (not_lt.mpr hst)]
  · intro c' hmem' hx
    rw [h2] at hx
    obtain ⟨d', hmem'', _⟩ := (staleName_mem_iff now latest c').mp hx
    exact absurd (assoc_unique latest hnd hmem' hmem'') (by simp)
  · intro data req opt mkt frd rep h
    rw [validateDataset_ok h, buildReport_stale_series, buildReport_latest,
      stalenessStage_eq]

/-- C3 amended-claim witness: in a map holding "fred_X" (45-day threshold,
50 days old) and "m" (7-day threshold, 10 days old), "fred_X" contributes
exactly one warning and one stale entry. -/
theorem staleness_threshold_by_fred_name_witness :
    (([("fred_X", some 0), ("m", some 40)] :
        List (String × Option Int)).map Prod.fst).Nodup
    ∧ ("fred_X", some (0 : Int)) ∈
        ([("fred_X", some 0), ("m", some 40)] :
          List (String × Option Int))
    ∧ (50 : Int) - 0 > staleThreshold "fred_X"
    ∧ ((stalenessStage 50
          [("fred_X", some 0), ("m", some 40)]).2.count "fred_X" = 1
        ∧ (stalenessStage 50
            [("fred_X", some 0), ("m", some 40)]).1.countP
              (Msg.isStaleFor "fred_X") = 1) :=
  ⟨by decide, by decide, by decide,
    (staleness_threshold_by_fred_name 50 [("fred_X", some 0), ("m", some 40)]
      "fred_X" 0 (by decide) (by decide)).2.2.1 (by decide)⟩

/-- C6: for every required column present in a successfully validated
table, the `largest_missing_business_gap` metric is the gap fold applied to
the column reindexed onto the business-day calendar spanning the index's
min..max dates; that fold computes exactly the length of the longest
contiguous run of nulls (a run of n consecutive nulls exists in the
reindexed series iff n is at most the metric value); the calendar is
exactly the business days d with min ≤ d ≤ max; and an empty reindexed
series yields 0. -/
theorem gap_metric_longest_missing_run (data : Frame)
    (req opt mkt frd : List String) (now : Int) (rep : ValidationReport)
    (c : String) (col : Col) (_hwf : data.wf = true)
    (h : validateDataset data req opt mkt frd now = Except.ok rep)
    (hreq : c ∈ req) (hcol : data.getCol c = some col) :
    lookupKey c (Metrics.largest_missing_business_gap rep.metrics) =
      some (largestConsecutiveMissingBusinessDays
        (reindexIsNA data.indexDates col.cells))
    ∧ (∀ n : Nat,
        List.replicate n true <:+: reindexIsNA data.indexDates col.cells ↔
          n ≤ largestConsecutiveMissingBusinessDays
            (reindexIsNA data.indexDates col.cells))
    ∧ (∀ d' : Int,
        d' ∈ bdayRange (datesMin data.indexDates)
            (datesMax data.indexDates) ↔
          datesMin data.indexDates ≤ d' ∧ d' ≤ datesMax data.indexDates ∧
            isBusinessDay d' = true)
    ∧ largestConsecutiveMissingBusinessDays [] = 0 := by
  have hrep := validateDataset_ok h
  subst hrep
  refine ⟨?_, ?_, ?_, rfl⟩
  · rw [buildReport_gaps]
    exact pureColFold_gaps_lookup data hcol req hreq
  · intro n
    exact replicate_infix_iff_le_largestRun _ n
  · intro d'
    exact mem_bdayRange _ _ d'

/-- C6 witness: `gapFrame` has data on Monday and Friday only; the metric
for "fred_DGS10" equals the gap fold of the reindexed series, which is the
3-day missing run Tuesday..Thursday. -/
theorem gap_metric_longest_missing_run_witness :
    gapFrame.wf = true
    ∧ validateDataset gapFrame ["fred_DGS10"] [] [] [] 19727 =
        Except.ok (buildReport gapFrame ["fred_DGS10"] [] [] [] 19727)
    ∧ lookupKey "fred_DGS10"
          (Metrics.largest_missing_business_gap
            (buildReport gapFrame ["fred_DGS10"] [] [] []
              19727).metrics) =
        some (largestConsecutiveMissingBusinessDays
          (reindexIsNA gapFrame.indexDates (wColNum [1, 2]).cells))
    ∧ largestConsecutiveMissingBusinessDays
        (reindexIsNA gapFrame.indexDates (wColNum [1, 2]).cells) = 3 := by
  have hmain :=
    gap_metric_longest_missing_run gapFrame ["fred_DGS10"] [] [] [] 19727 _
      "fred_DGS10" (wColNum [1, 2]) (by decide) rfl (by decide) (by decide)
  exact ⟨by decide, rfl, hmain.1, by decide⟩

end RiskLab
